import Mathlib

/-!
Verification of the Financial-Market-Analyzer backend core against its
natural-language specification.  The definitions below are a shallow
embedding of the Python sources:

* `bounded`, `label_from_score`, `round4`, `annotate_row`,
  `build_market_guidance` embed `app/services/analytics.py`
  (`_bounded`, `_label_from_score`, `round(.., 4)`, the per-row
  annotation loop of `build_market_guidance`).
* `StoreState`, `takeLast`, `commit`, `commits`, `pySliceLast`,
  `get_history`, `refresh_once`, `J`, `jget`, `load_from_disk`,
  `get_latest` embed the snapshot store of
  `app/services/market_overview.py`.
* `KeyPool`, `take_next_key`, `takeKeys`, `Payload`,
  `is_throttle_payload`, `get_go`, `av_get` embed the credential pool
  and the `_get` request body of `app/services/alphavantage.py`.
* `SFState`, `start_refresh`, `finish_refresh`, `Reach` embed the
  single-flight refresh task machinery of
  `app/services/market_overview.py` (`start_refresh`,
  `_run_refresh_task`).

Numeric values are modelled as exact rationals.
-/

set_option maxRecDepth 8000

/-! ## Guidance scoring (analytics.py) -/

/-- Embeds `_bounded(x, lo, hi)`: `None` becomes `0.0`, otherwise the
value is clamped into `[lo, hi]`. -/
def bounded (x : Option ℚ) (lo hi : ℚ) : ℚ :=
  match x with
  | none => 0
  | some v => max lo (min hi v)

/-- Embeds `_label_from_score`: `buy` when the score is at least `0.22`,
`sell` when at most `-0.22`, otherwise `hold`. -/
def label_from_score (score : ℚ) : String :=
  if score ≥ 22/100 then "buy"
  else if score ≤ -(22/100) then "sell"
  else "hold"

/-- Round a rational to the nearest integer, ties to the even integer.
This is the rounding mode of Python `round`. -/
def round_half_even (x : ℚ) : ℤ :=
  let f := ⌊x⌋
  let r := x - (f : ℚ)
  if r < 1/2 then f
  else if 1/2 < r then f + 1
  else if f % 2 = 0 then f else f + 1

/-- Embeds Python `round(x, 4)` (idealised over exact rationals). -/
def round4 (x : ℚ) : ℚ :=
  (round_half_even (10000 * x) : ℚ) / 10000

/-- One input row for the guidance builder: the three numeric fields the
scoring loop of `build_market_guidance` reads, each possibly absent. -/
structure GRow where
  momentum_1d : Option ℚ
  volatility_proxy : Option ℚ
  sentiment : Option ℚ
deriving DecidableEq, Repr

/-- A row as annotated by `build_market_guidance`: the original row plus
`signal_score`, `signal` and `risk_score`. -/
structure SignalRow where
  row : GRow
  signal_score : ℚ
  signal : String
  risk_score : ℚ
deriving DecidableEq, Repr

/-- Embeds the loop body of `build_market_guidance`: clamp the inputs,
compute `score = 0.5*momentum + 0.35*sentiment - 0.25*volatility`, store
`round(score, 4)` as `signal_score`, the label of the unrounded score as
`signal`, and `round(volatility, 4)` as `risk_score`. -/
def annotate_row (r : GRow) : SignalRow :=
  let momentum := bounded r.momentum_1d (-1) 1
  let volatility := bounded r.volatility_proxy 0 1
  let sentiment := bounded r.sentiment (-1) 1
  let score := (1/2) * momentum + (35/100) * sentiment - (25/100) * volatility
  { row := r
    signal_score := round4 score
    signal := label_from_score score
    risk_score := round4 volatility }

/-- Embeds the `merged` list of `build_market_guidance`: every row of
`stock_rows + fx_rows + crypto_rows` is annotated in order. -/
def build_market_guidance (stock_rows fx_rows crypto_rows : List GRow) :
    List SignalRow :=
  (stock_rows ++ fx_rows ++ crypto_rows).map annotate_row

/-! ## Snapshot store (market_overview.py) -/

/-- The in-memory snapshot store `self._snapshot`, viewed through its two
fields: `latest` (absent in an empty store) and `history`.  Snapshot
contents are opaque for the store-level claims. -/
structure StoreState (α : Type) where
  latest : Option α
  history : List α
deriving DecidableEq, Repr

/-- The last `n` elements of a list; embeds the Python slice `xs[-n:]`
for `n ≥ 1`. -/
def takeLast {α : Type} (n : Nat) (xs : List α) : List α :=
  xs.drop (xs.length - n)

/-- Embeds the commit block of `refresh_once`: append the new snapshot to
`history`, keep the last 200 entries, and publish the snapshot as
`latest`. -/
def commit {α : Type} (st : StoreState α) (s : α) : StoreState α :=
  { latest := some s, history := takeLast 200 (st.history ++ [s]) }

/-- A sequence of completed refreshes, committed in order. -/
def commits {α : Type} (st : StoreState α) (ss : List α) : StoreState α :=
  ss.foldl commit st

/-- Embeds the Python slice `xs[-limit:]` for a nonnegative `limit`:
`limit = 0` denotes `xs[0:]`, the whole list; otherwise the last
`limit` elements. -/
def pySliceLast {α : Type} (n : Nat) (xs : List α) : List α :=
  if n = 0 then xs else takeLast n xs

/-- Embeds `get_history(limit)`: `self._snapshot.get("history", [])[-limit:]`. -/
def get_history {α : Type} (st : StoreState α) (limit : Nat) : List α :=
  pySliceLast limit st.history

/-- Refresh status states of the orchestrator state machine. -/
inductive RState where
  | idle
  | running
  | completed
  | failed (msg : String)
deriving DecidableEq, Repr

/-- Embeds the outcome of one `refresh_once` run.  `fetch` is the result
of the fetch-and-build phase (everything before the store commit); a
`Except.error` there models an exception raised in that phase.
`persistErr` models `_persist` raising a disk-write error: note that in
the source the assignment `self._snapshot = ...` happens before
`self._persist()` inside the same lock, so a persist failure leaves the
new snapshot already committed in memory.  The returned triple is
(re-raised result, final store, final tracked status). -/
def refresh_once {α : Type} (track_progress : Bool) (status : RState)
    (st : StoreState α) (fetch : Except String α) (persistErr : Option String) :
    Except String α × StoreState α × RState :=
  match fetch with
  | .error e => (.error e, st, if track_progress then .failed e else status)
  | .ok s =>
    let st2 := commit st s
    match persistErr with
    | some e => (.error e, st2, if track_progress then .failed e else status)
    | none => (.ok s, st2, if track_progress then .completed else status)

/-! ## JSON-level store load and latest accessor (market_overview.py) -/

/-- A minimal JSON value, enough to model the persisted snapshot store
document. -/
inductive J where
  | null : J
  | jstr : String → J
  | jnum : ℚ → J
  | jbool : Bool → J
  | jarr : List J → J
  | jobj : List (String × J) → J

/-- Embeds Python `dict.get(key, dflt)`; on a non-dict receiver the
attribute access raises. -/
def jget (j : J) (key : String) (dflt : J) : Except String J :=
  match j with
  | .jobj fields => .ok ((fields.lookup key).getD dflt)
  | _ => .error "AttributeError"

/-- Startup input for `_load_from_disk`: the data file may be absent,
present but unparsable, or parsed to a JSON document. -/
inductive LoadInput where
  | absent
  | unparsable
  | parsed (j : J)

/-- Embeds `_load_from_disk`: an absent file leaves the initial empty
dict in place, a parse failure resets the snapshot to the empty dict,
otherwise the parsed document is installed. -/
def load_from_disk : LoadInput → J
  | .absent => .jobj []
  | .unparsable => .jobj []
  | .parsed j => j

/-- Embeds `get_latest`: `self._snapshot.get("latest", \x7b\x7d)`. -/
def get_latest (snapshot : J) : Except String J :=
  jget snapshot "latest" (.jobj [])

/-! ## Upstream client (alphavantage.py) -/

/-- Errors the client body can raise before reaching the network:
`noCredentials` embeds `RuntimeError("No Alpha Vantage API keys configured.")`,
`indexError` embeds an out-of-range list index. -/
inductive ClientError where
  | noCredentials
  | indexError
deriving DecidableEq, Repr

/-- The credential pool of `AlphaVantageClient`: the ordered key list
and the round-robin cursor `_next_key_idx`. -/
structure KeyPool where
  api_keys : List String
  next_key_idx : Nat
deriving DecidableEq, Repr

/-- Embeds `_take_next_key`: fail fast on an empty pool, otherwise
return the key at the cursor and advance the cursor modulo the pool
size. -/
def take_next_key (p : KeyPool) : Except ClientError (String × KeyPool) :=
  if p.api_keys.isEmpty then .error .noCredentials
  else
    match p.api_keys[p.next_key_idx]? with
    | some key => .ok (key, ⟨p.api_keys, (p.next_key_idx + 1) % p.api_keys.length⟩)
    | none => .error .indexError

/-- `n` consecutive invocations of `take_next_key`, collecting the drawn
keys in order. -/
def takeKeys : Nat → KeyPool → Except ClientError (List String × KeyPool)
  | 0, p => .ok ([], p)
  | n + 1, p =>
    match take_next_key p with
    | .error e => .error e
    | .ok (k, p1) =>
      match takeKeys n p1 with
      | .error e => .error e
      | .ok (ks, p2) => .ok (k :: ks, p2)

/-- The value stored under one field of a decoded structured payload,
classified only by whether it is a string (all `_is_throttle_payload`
inspects). -/
inductive FieldVal where
  | str : String → FieldVal
  | other : FieldVal
deriving DecidableEq, Repr

/-- A decoded upstream response: either a structured dict or some
non-dict JSON value. -/
inductive Payload where
  | dict : List (String × FieldVal) → Payload
  | nondict : Payload
deriving DecidableEq, Repr

/-- Embeds `_is_throttle_payload`: the payload is a dict whose `Note`
field is present and holds a string. -/
def is_throttle_payload : Payload → Bool
  | .dict fields =>
    match fields.lookup "Note" with
    | some (.str _) => true
    | _ => false
  | .nondict => false

deriving instance DecidableEq for Except

/-- The observable outcome of one execution of the `_get` body: the
returned (or raised) result, the final pool state, and the log of
upstream requests issued, each recorded as (api key used, decoded
response). -/
structure GetLog where
  result : Except ClientError Payload
  pool : KeyPool
  requests : List (String × Payload)
deriving DecidableEq, Repr

/-- Embeds the `_get` body.  `resp i` is the decoded response to the
`i`-th upstream request issued by this call.  The fuel argument is the
remaining loop iterations of `for _ in range(attempts)`; at fuel `0` the
post-loop fallback runs: draw one more key, issue one non-retried
request, and return its payload unconditionally. -/
def get_go (resp : Nat → Payload) :
    Nat → KeyPool → List (String × Payload) → GetLog
  | 0, p, log =>
    match take_next_key p with
    | .error e => ⟨.error e, p, log⟩
    | .ok (k, p1) =>
      let data := resp log.length
      ⟨.ok data, p1, log ++ [(k, data)]⟩
  | n + 1, p, log =>
    match take_next_key p with
    | .error e => ⟨.error e, p, log⟩
    | .ok (k, p1) =>
      let data := resp log.length
      if is_throttle_payload data then get_go resp n p1 (log ++ [(k, data)])
      else ⟨.ok data, p1, log ++ [(k, data)]⟩

/-- Embeds `_get`: `attempts = max(1, len(self.api_keys))` loop
iterations followed by the fallback request. -/
def av_get (p : KeyPool) (resp : Nat → Payload) : GetLog :=
  get_go resp (max 1 p.api_keys.length) p []

/-! ## Single-flight refresh task machinery (market_overview.py) -/

/-- Observable single-flight state of the orchestrator: whether a
refresh task handle exists and is unfinished (`_refresh_task is not None
and not done()`), how many executions of the refresh body are currently
running, and the tracked status state. -/
structure SFState where
  inFlight : Bool
  bodies : Nat
  status : RState
deriving DecidableEq, Repr

/-- The value returned by `start_refresh`: the `accepted` flag and the
status it reports. -/
structure StartResult where
  accepted : Bool
  status : RState
deriving DecidableEq, Repr

/-- Embeds `start_refresh` (one atomic step: the whole body runs under
`_start_lock` and no other event can interleave with it).  If a refresh
task is in flight, reject and leave the state unchanged; otherwise mark
the status running, spawn the refresh task (one new body), and return
accepted without waiting for completion. -/
def start_refresh (s : SFState) : StartResult × SFState :=
  if s.inFlight then
    ({ accepted := false, status := s.status }, s)
  else
    ({ accepted := true, status := .running },
     { inFlight := true, bodies := s.bodies + 1, status := .running })

/-- Embeds the end of `_run_refresh_task`: the refresh body finishes
with some outcome status and the `finally` block clears the task handle
in the same step (no suspension point separates them). -/
def finish_refresh (s : SFState) (outcome : RState) : SFState :=
  { inFlight := false, bodies := s.bodies - 1, status := outcome }

/-- Reachable single-flight states: from the initial idle state, any
interleaving of `start_refresh` calls and body completions (a completion
event requires a running body). -/
inductive Reach : SFState → Prop where
  | init : Reach ⟨false, 0, .idle⟩
  | start (s : SFState) : Reach s → Reach (start_refresh s).2
  | finish (s : SFState) (outcome : RState) :
      Reach s → 1 ≤ s.bodies → Reach (finish_refresh s outcome)

/-! ## Lemmas about takeLast -/

theorem takeLast_of_length_le {α : Type} {n : Nat} {xs : List α}
    (h : xs.length ≤ n) : takeLast n xs = xs := by
  simp [takeLast, Nat.sub_eq_zero_of_le h]

theorem length_takeLast {α : Type} (n : Nat) (xs : List α) :
    (takeLast n xs).length = min n xs.length := by
  simp only [takeLast, List.length_drop]
  omega

theorem takeLast_append_of_le {α : Type} {n : Nat} (ws : List α) {zs : List α}
    (h : n ≤ zs.length) : takeLast n (ws ++ zs) = takeLast n zs := by
  unfold takeLast
  have h1 : (ws ++ zs).length - n = ws.length + (zs.length - n) := by
    simp only [List.length_append]; omega
  rw [h1, List.drop_append]

theorem takeLast_takeLast_append {α : Type} (n : Nat) (xs ys : List α) :
    takeLast n (takeLast n xs ++ ys) = takeLast n (xs ++ ys) := by
  by_cases h : xs.length ≤ n
  · rw [takeLast_of_length_le h]
  · have hlen : (takeLast n xs).length = n := by rw [length_takeLast]; omega
    have hcond : n ≤ (takeLast n xs ++ ys).length := by
      rw [List.length_append, hlen]; omega
    conv_rhs => rw [← List.take_append_drop (xs.length - n) xs]
    rw [List.append_assoc]
    exact (takeLast_append_of_le (xs.take (xs.length - n)) hcond).symm

theorem getLast?_takeLast_concat {α : Type} {n : Nat} (hn : 1 ≤ n)
    (ws : List α) (a : α) : (takeLast n (ws ++ [a])).getLast? = some a := by
  unfold takeLast
  have hk : (ws ++ [a]).length - n ≤ ws.length := by
    simp only [List.length_append, List.length_cons, List.length_nil]; omega
  rw [List.drop_append_of_le_length hk, List.getLast?_concat]

/-! ## Lemmas about commits -/

theorem commits_concat {α : Type} (st : StoreState α) (l : List α) (a : α) :
    commits st (l ++ [a]) = commit (commits st l) a := by
  simp [commits, List.foldl_concat]

theorem commits_history_cons {α : Type} (s : α) (rest : List α)
    (st : StoreState α) :
    (commits st (s :: rest)).history = takeLast 200 (st.history ++ (s :: rest)) := by
  induction rest generalizing s st with
  | nil =>
    show (commit st s).history = _
    rfl
  | cons r rs ih =>
    show (commits (commit st s) (r :: rs)).history = _
    rw [ih]
    show takeLast 200 (takeLast 200 (st.history ++ [s]) ++ (r :: rs)) = _
    rw [takeLast_takeLast_append, List.append_assoc]
    rfl

theorem commits_history {α : Type} (ss : List α) (st : StoreState α)
    (h : ss ≠ []) :
    (commits st ss).history = takeLast 200 (st.history ++ ss) := by
  obtain ⟨s, rest, rfl⟩ := List.exists_cons_of_ne_nil h
  exact commits_history_cons s rest st

theorem commits_latest {α : Type} (ss : List α) (st : StoreState α)
    (h : ss ≠ []) : (commits st ss).latest = some (ss.getLast h) := by
  obtain ⟨l, a, rfl⟩ : ∃ l a, ss = l ++ [a] :=
    ⟨ss.dropLast, ss.getLast h, (List.dropLast_concat_getLast h).symm⟩
  rw [commits_concat]
  show some a = some ((l ++ [a]).getLast h)
  rw [List.getLast_concat]

/-- Claim C5: after every completed refresh, history holds at most 200
entries — the most recent snapshots in chronological order, oldest
dropped first — and latest equals the last element of history; after
more than 200 completed refreshes the history is exactly the most
recent 200 snapshots in order. -/
theorem C5_snapshot_store_invariant {α : Type} (st : StoreState α)
    (ss : List α) (h : ss ≠ []) :
    (commits st ss).history.length ≤ 200 ∧
    (commits st ss).history = takeLast 200 (st.history ++ ss) ∧
    (commits st ss).latest = (commits st ss).history.getLast? ∧
    (commits st ss).latest = some (ss.getLast h) ∧
    (200 < ss.length →
      (commits st ss).history = takeLast 200 ss ∧
      (commits st ss).history.length = 200) := by
  have hh := commits_history ss st h
  have hl := commits_latest ss st h
  obtain ⟨l, a, rfl⟩ : ∃ l a, ss = l ++ [a] :=
    ⟨ss.dropLast, ss.getLast h, (List.dropLast_concat_getLast h).symm⟩
  refine ⟨?_, hh, ?_, hl, ?_⟩
  · rw [hh, length_takeLast]; omega
  · rw [hh, hl, ← List.append_assoc, getLast?_takeLast_concat (by omega),
      List.getLast_concat]
  · intro hlong
    have h200 : 200 ≤ (l ++ [a]).length := le_of_lt hlong
    constructor
    · rw [hh, takeLast_append_of_le st.history h200]
    · rw [hh, length_takeLast]
      simp only [List.length_append] at hlong ⊢
      omega

/-- Witness for C5 at a concrete one-refresh run. -/
theorem C5_witness :
    ([7] : List ℕ) ≠ [] ∧ (commits (⟨none, []⟩ : StoreState ℕ) [7]).latest = some 7 := by
  refine ⟨by decide, ?_⟩
  have h := C5_snapshot_store_invariant (⟨none, []⟩ : StoreState ℕ) [7] (by decide)
  simpa using h.2.2.2.1

/-- Claim C9, counterexample: with one snapshot in the store, a
requested limit of 0 returns the whole history (the Python slice
`history[-0:]` is `history[0:]`), so the result has more than 0
entries, contradicting the claimed bound for n = 0. -/
theorem C9_counterexample :
    get_history (⟨some 0, [0]⟩ : StoreState ℕ) 0 = [0] ∧
    ¬ (get_history (⟨some 0, [0]⟩ : StoreState ℕ) 0).length ≤ 0 := by
  decide

/-- Claim C9 (amended): for every store and limit n, get_history
returns a suffix of history (most-recent-last); for n ≥ 1 it has
exactly min(n, length of history) entries, while for n = 0 it is the
entire history. -/
theorem C9_get_history_slicing {α : Type} (st : StoreState α) (n : Nat) :
    (∃ pre, pre ++ get_history st n = st.history) ∧
    (get_history st n).length =
      (if n = 0 then st.history.length else min n st.history.length) := by
  unfold get_history pySliceLast
  by_cases h : n = 0
  · subst h
    exact ⟨⟨[], rfl⟩, by simp⟩
  · simp only [if_neg h]
    exact ⟨⟨st.history.take (st.history.length - n),
      List.take_append_drop _ _⟩, length_takeLast n st.history⟩

/-- Claim C2, counterexample: a disk-write failure during `_persist`
happens after the in-memory commit inside the same locked block, so the
failed run has already replaced latest and extended history; the values
observed afterwards through get_latest and get_history are not those of
the last successful refresh. -/
theorem C2_counterexample :
    refresh_once true .running (⟨some 0, [0]⟩ : StoreState ℕ) (.ok 1)
        (some "disk write failed") =
      (.error "disk write failed", ⟨some 1, [0, 1]⟩,
        .failed "disk write failed") ∧
    (⟨some 1, [0, 1]⟩ : StoreState ℕ).latest ≠
      (⟨some 0, [0]⟩ : StoreState ℕ).latest ∧
    get_history (⟨some 1, [0, 1]⟩ : StoreState ℕ) 48 ≠
      get_history (⟨some 0, [0]⟩ : StoreState ℕ) 48 := by
  decide

/-- Claim C2 (amended): with progress tracking enabled (the path used by
every spawned refresh task), a failure in the fetch-and-build phase
marks the status failed with the error message, re-raises, and leaves
the store — hence everything observed through get_latest and
get_history — exactly unchanged; a disk-write failure during persist
also marks the status failed and re-raises, but the in-memory store has
already committed the new snapshot. -/
theorem C2_failed_refresh_atomicity {α : Type} (status : RState)
    (st : StoreState α) (e : String) (pe : Option String) (s : α) :
    refresh_once true status st (.error e) pe = (.error e, st, .failed e) ∧
    refresh_once true status st (.ok s) (some e) =
      (.error e, commit st s, .failed e) := by
  exact ⟨rfl, rfl⟩

/-- Claim C10: when no snapshot has ever been persisted — including when
the store file is absent or unparsable at startup, both of which load
as the empty store — get_latest returns the empty mapping rather than
raising or returning a null result. -/
theorem C10_get_latest_total_on_empty_store :
    get_latest (load_from_disk .absent) = .ok (J.jobj []) ∧
    get_latest (load_from_disk .unparsable) = .ok (J.jobj []) ∧
    get_latest (J.jobj []) = .ok (J.jobj []) :=
  ⟨rfl, rfl, rfl⟩

/-! ## Guidance scoring claims -/

theorem bounded_bounds (x : Option ℚ) {lo hi : ℚ} (h0 : lo ≤ 0) (h1 : 0 ≤ hi) :
    lo ≤ bounded x lo hi ∧ bounded x lo hi ≤ hi := by
  cases x with
  | none => exact ⟨h0, h1⟩
  | some v => exact ⟨le_max_left _ _, max_le (le_trans h0 h1) (min_le_left _ _)⟩

/-- Claim C8, counterexample: the code stores `round(score, 4)` as
signal_score and `round(volatility, 4)` as risk_score, so for a row
whose exact score needs more than four decimal places the stored
values differ from the exact formula values claimed. -/
theorem C8_counterexample :
    (annotate_row ⟨some (1/50000), some (1/50000), none⟩).signal_score ≠
      (1/2) * (1/50000 : ℚ) + (35/100) * 0 - (25/100) * (1/50000) ∧
    (annotate_row ⟨some (1/50000), some (1/50000), none⟩).risk_score ≠
      (1/50000 : ℚ) := by
  constructor
  · show round4 _ ≠ _
    norm_num [bounded, round4, round_half_even, min_def, max_def]
  · show round4 _ ≠ _
    norm_num [bounded, round4, round_half_even, min_def, max_def]

/-- Claim C8 (amended): for every input row, with momentum and sentiment
clamped to [-1, 1], volatility clamped to [0, 1], and absent values
treated as 0, the annotated signal_score equals the score
0.5*momentum + 0.35*sentiment - 0.25*volatility rounded to four decimal
places, risk_score equals the clamped volatility rounded to four
decimal places, and the signal is buy exactly when the unrounded score
is at least 0.22, sell exactly when it is at most -0.22, and hold
otherwise; the three concrete examples of the claim hold as stated. -/
theorem C8_guidance_scoring (r : GRow) :
    (annotate_row r).signal_score =
      round4 ((1/2) * bounded r.momentum_1d (-1) 1
        + (35/100) * bounded r.sentiment (-1) 1
        - (25/100) * bounded r.volatility_proxy 0 1) ∧
    (annotate_row r).risk_score = round4 (bounded r.volatility_proxy 0 1) ∧
    ((annotate_row r).signal = "buy" ↔
      22/100 ≤ (1/2) * bounded r.momentum_1d (-1) 1
        + (35/100) * bounded r.sentiment (-1) 1
        - (25/100) * bounded r.volatility_proxy 0 1) ∧
    ((annotate_row r).signal = "sell" ↔
      (1/2) * bounded r.momentum_1d (-1) 1
        + (35/100) * bounded r.sentiment (-1) 1
        - (25/100) * bounded r.volatility_proxy 0 1 ≤ -(22/100)) ∧
    ((annotate_row r).signal = "hold" ↔
      (-(22/100) < (1/2) * bounded r.momentum_1d (-1) 1
        + (35/100) * bounded r.sentiment (-1) 1
        - (25/100) * bounded r.volatility_proxy 0 1 ∧
       (1/2) * bounded r.momentum_1d (-1) 1
        + (35/100) * bounded r.sentiment (-1) 1
        - (25/100) * bounded r.volatility_proxy 0 1 < 22/100)) ∧
    (-1 ≤ bounded r.momentum_1d (-1) 1 ∧ bounded r.momentum_1d (-1) 1 ≤ 1) ∧
    (0 ≤ bounded r.volatility_proxy 0 1 ∧ bounded r.volatility_proxy 0 1 ≤ 1) ∧
    (-1 ≤ bounded r.sentiment (-1) 1 ∧ bounded r.sentiment (-1) 1 ≤ 1) ∧
    (annotate_row ⟨some (1/2), none, some (1/2)⟩).signal_score = 425/1000 ∧
    (annotate_row ⟨some (1/2), none, some (1/2)⟩).signal = "buy" ∧
    (annotate_row ⟨some (-(1/2)), none, some (-(1/2))⟩).signal_score = -(425/1000) ∧
    (annotate_row ⟨some (-(1/2)), none, some (-(1/2))⟩).signal = "sell" ∧
    (annotate_row ⟨none, none, none⟩).signal_score = 0 ∧
    (annotate_row ⟨none, none, none⟩).signal = "hold" := by
  refine ⟨rfl, rfl, ?_, ?_, ?_,
    bounded_bounds _ (by norm_num) (by norm_num),
    bounded_bounds _ (by norm_num) (by norm_num),
    bounded_bounds _ (by norm_num) (by norm_num),
    by norm_num [annotate_row, bounded, round4, round_half_even, min_def, max_def],
    by norm_num [annotate_row, bounded, label_from_score, min_def, max_def],
    by norm_num [annotate_row, bounded, round4, round_half_even, min_def, max_def],
    by norm_num [annotate_row, bounded, label_from_score, min_def, max_def],
    by norm_num [annotate_row, bounded, round4, round_half_even],
    by norm_num [annotate_row, bounded, label_from_score]⟩
  · show label_from_score _ = "buy" ↔ _
    unfold label_from_score
    split_ifs with h1 h2
    · exact iff_of_true rfl h1
    · exact iff_of_false (by decide) h1
    · exact iff_of_false (by decide) h1
  · show label_from_score _ = "sell" ↔ _
    unfold label_from_score
    split_ifs with h1 h2
    · exact iff_of_false (by decide) (fun hc => by
        simp only [ge_iff_le] at h1; linarith)
    · exact iff_of_true rfl h2
    · exact iff_of_false (by decide) h2
  · show label_from_score _ = "hold" ↔ _
    unfold label_from_score
    split_ifs with h1 h2
    · exact iff_of_false (by decide) (fun hc => hc.2.not_le h1)
    · exact iff_of_false (by decide) (fun hc => hc.1.not_le h2)
    · exact iff_of_true rfl ⟨not_le.mp h2, not_le.mp h1⟩

/-! ## Single-flight claims -/

theorem reach_invariant (s : SFState) (h : Reach s) :
    s.bodies ≤ 1 ∧ (s.inFlight = true ↔ s.bodies = 1) := by
  induction h with
  | init => exact ⟨by decide, by decide⟩
  | start s hs ih =>
    by_cases hf : s.inFlight = true
    · simpa [start_refresh, hf] using ih
    · have hb : s.bodies = 0 := by
        have hne := mt ih.2.mpr hf
        omega
      simp [start_refresh, hf, hb]
  | finish s outcome hs hb ih =>
    have h1 : s.bodies = 1 := le_antisymm ih.1 hb
    simp [finish_refresh, h1]

/-- Claim C1: in every reachable state at most one refresh body runs; if
a refresh task is in flight, start_refresh rejects with accepted =
false, reports the current status, and changes nothing (no second task
is created); if none is in flight, start_refresh marks the status
running, spawns the single refresh body, and returns accepted = true
without waiting for completion. -/
theorem C1_single_flight (s : SFState) (h : Reach s) :
    s.bodies ≤ 1 ∧
    (s.inFlight = true →
      (start_refresh s).1.accepted = false ∧
      (start_refresh s).1.status = s.status ∧
      (start_refresh s).2 = s) ∧
    (s.inFlight = false →
      (start_refresh s).1.accepted = true ∧
      (start_refresh s).2.status = RState.running ∧
      (start_refresh s).2.bodies = 1 ∧
      (start_refresh s).2.inFlight = true) := by
  have inv := reach_invariant s h
  refine ⟨inv.1, ?_, ?_⟩
  · intro hf
    simp [start_refresh, hf]
  · intro hf
    have hb : s.bodies = 0 := by
      have hne := mt inv.2.mpr (by simp [hf])
      omega
    simp [start_refresh, hf, hb]

/-- Witness for C1 at the initial state. -/
theorem C1_witness :
    (start_refresh ⟨false, 0, RState.idle⟩).1.accepted = true ∧
    (start_refresh ⟨false, 0, RState.idle⟩).2.bodies = 1 := by
  have h := C1_single_flight ⟨false, 0, RState.idle⟩ Reach.init
  exact ⟨(h.2.2 rfl).1, (h.2.2 rfl).2.2.1⟩

/-! ## Credential pool claims -/

theorem take_next_key_ok (keys : List String) {c : Nat} (hne : keys ≠ [])
    (hc : c < keys.length) :
    take_next_key ⟨keys, c⟩ =
      .ok (keys.getD c "", ⟨keys, (c + 1) % keys.length⟩) := by
  unfold take_next_key
  rw [List.isEmpty_eq_false.mpr hne]
  simp only [Bool.false_eq_true, if_false]
  rw [List.getElem?_eq_getElem hc, List.getD_eq_getElem keys "" hc]

theorem takeKeys_formula (keys : List String) (hne : keys ≠ []) :
    ∀ (n c : Nat), c < keys.length →
      takeKeys n ⟨keys, c⟩ =
        .ok ((List.range n).map (fun i => keys.getD ((c + i) % keys.length) ""),
          ⟨keys, (c + n) % keys.length⟩) := by
  intro n
  induction n with
  | zero =>
    intro c hc
    simp [takeKeys, Nat.mod_eq_of_lt hc]
  | succ n ih =>
    intro c hc
    have hlen : 0 < keys.length := List.length_pos.mpr hne
    have hnext : (c + 1) % keys.length < keys.length := Nat.mod_lt _ hlen
    show takeKeys (n + 1) ⟨keys, c⟩ = _
    unfold takeKeys
    rw [take_next_key_ok keys hne hc]
    dsimp only
    rw [ih ((c + 1) % keys.length) hnext]
    dsimp only
    simp only [Except.ok.injEq, Prod.mk.injEq, KeyPool.mk.injEq, true_and]
    refine ⟨?_, ?_⟩
    · rw [List.range_succ_eq_map, List.map_cons, List.map_map]
      congr 1
      · rw [Nat.add_zero, Nat.mod_eq_of_lt hc]
      · apply List.map_eq_map_iff.mpr
        intro i _
        show keys.getD (((c + 1) % keys.length + i) % keys.length) "" = _
        have hadd : c + 1 + i = c + Nat.succ i := by omega
        rw [Nat.mod_add_mod, hadd]
        rfl
    · have hadd : c + 1 + n = c + (n + 1) := by omega
      rw [Nat.mod_add_mod, hadd]

theorem range_map_eq_rotate (keys : List String) (hne : keys ≠ []) (c : Nat) :
    (List.range keys.length).map (fun i => keys.getD ((c + i) % keys.length) "") =
      keys.rotate c := by
  have hlen : 0 < keys.length := List.length_pos.mpr hne
  apply List.ext_getElem
  · simp [List.length_rotate]
  · intro i h1 h2
    simp only [List.getElem_map, List.getElem_range]
    rw [List.getElem_rotate]
    rw [List.getD_eq_getElem keys "" (Nat.mod_lt _ hlen)]
    congr 1
    rw [Nat.add_comm]

/-- Claim C7: for every credential pool of size k and starting cursor in
[0, k), k consecutive key draws return each of the k keys exactly once,
in the pool order starting at the cursor, the cursor returns to its
starting position, and every draw leaves the cursor inside [0, k). -/
theorem C7_round_robin_cycle (keys : List String) (c : Nat)
    (hne : keys ≠ []) (hc : c < keys.length) :
    takeKeys keys.length ⟨keys, c⟩ =
      .ok (keys.drop c ++ keys.take c, ⟨keys, c⟩) ∧
    (keys.drop c ++ keys.take c).Perm keys ∧
    (∀ n ks p2, takeKeys n ⟨keys, c⟩ = .ok (ks, p2) →
      p2.api_keys = keys ∧ p2.next_key_idx < keys.length) := by
  have hd : keys.rotate c = keys.drop c ++ keys.take c :=
    List.rotate_eq_drop_append_take (le_of_lt hc)
  refine ⟨?_, ?_, ?_⟩
  · rw [takeKeys_formula keys hne keys.length c hc,
      range_map_eq_rotate keys hne c, hd, Nat.add_mod_right,
      Nat.mod_eq_of_lt hc]
  · rw [← hd]
    exact List.rotate_perm keys c
  · intro n ks p2 h
    rw [takeKeys_formula keys hne n c hc] at h
    simp only [Except.ok.injEq, Prod.mk.injEq] at h
    rw [← h.2]
    exact ⟨rfl, Nat.mod_lt _ (List.length_pos.mpr hne)⟩

/-- Witness for C7 on a two-key pool starting at cursor 1. -/
theorem C7_witness :
    takeKeys 2 ⟨["a", "b"], 1⟩ = .ok (["b", "a"], ⟨["a", "b"], 1⟩) := by
  have h := (C7_round_robin_cycle ["a", "b"] 1 (by decide) (by decide)).1
  simpa using h

/-- Claim C6: a client call made while the credential pool is empty
fails immediately with the no-credentials error: the error is raised by
the key draw before any upstream request is issued (the request log is
empty), and the call produces an error, not a response. -/
theorem C6_no_credentials_fail_fast (idx : Nat) (resp : Nat → Payload) :
    av_get ⟨[], idx⟩ resp = ⟨.error .noCredentials, ⟨[], idx⟩, []⟩ ∧
    take_next_key ⟨[], idx⟩ = .error .noCredentials :=
  ⟨rfl, rfl⟩

/-! ## Client request body lemmas -/

theorem get_go_ok (keys : List String) (hne : keys ≠ []) (resp : Nat → Payload) :
    ∀ (n c : Nat) (log : List (String × Payload)), c < keys.length →
      (∃ pl, (get_go resp n ⟨keys, c⟩ log).result = .ok pl) ∧
      (get_go resp n ⟨keys, c⟩ log).requests.length ≤ log.length + n + 1 := by
  intro n
  induction n with
  | zero =>
    intro c log hc
    unfold get_go
    rw [take_next_key_ok keys hne hc]
    dsimp only
    refine ⟨⟨resp log.length, rfl⟩, ?_⟩
    simp only [List.length_append, List.length_cons, List.length_nil]
    omega
  | succ n ih =>
    intro c log hc
    have hnext : (c + 1) % keys.length < keys.length :=
      Nat.mod_lt _ (List.length_pos.mpr hne)
    unfold get_go
    rw [take_next_key_ok keys hne hc]
    dsimp only
    by_cases ht : is_throttle_payload (resp log.length) = true
    · rw [if_pos ht]
      have h2 := ih ((c + 1) % keys.length)
        (log ++ [(keys.getD c "", resp log.length)]) hnext
      refine ⟨h2.1, ?_⟩
      have h3 := h2.2
      simp only [List.length_append, List.length_cons, List.length_nil] at h3 ⊢
      omega
    · rw [if_neg ht]
      refine ⟨⟨resp log.length, rfl⟩, ?_⟩
      simp only [List.length_append, List.length_cons, List.length_nil]
      omega

theorem get_go_prefix (keys : List String) (hne : keys ≠ []) (resp : Nat → Payload) :
    ∀ (n c : Nat) (log : List (String × Payload)), c < keys.length →
      log <+: (get_go resp n ⟨keys, c⟩ log).requests := by
  intro n
  induction n with
  | zero =>
    intro c log hc
    unfold get_go
    rw [take_next_key_ok keys hne hc]
    dsimp only
    exact List.prefix_append log _
  | succ n ih =>
    intro c log hc
    have hnext : (c + 1) % keys.length < keys.length :=
      Nat.mod_lt _ (List.length_pos.mpr hne)
    unfold get_go
    rw [take_next_key_ok keys hne hc]
    dsimp only
    by_cases ht : is_throttle_payload (resp log.length) = true
    · rw [if_pos ht]
      exact (List.prefix_append log _).trans (ih _ _ hnext)
    · rw [if_neg ht]
      exact List.prefix_append log _

theorem get_go_first (keys : List String) (hne : keys ≠ []) (resp : Nat → Payload) :
    ∀ (n c : Nat) (log : List (String × Payload)), c < keys.length →
      (get_go resp n ⟨keys, c⟩ log).requests[log.length]? =
        some (keys.getD c "", resp log.length) := by
  intro n
  induction n with
  | zero =>
    intro c log hc
    unfold get_go
    rw [take_next_key_ok keys hne hc]
    dsimp only
    exact List.getElem?_concat_length log _
  | succ n ih =>
    intro c log hc
    have hnext : (c + 1) % keys.length < keys.length :=
      Nat.mod_lt _ (List.length_pos.mpr hne)
    unfold get_go
    rw [take_next_key_ok keys hne hc]
    dsimp only
    by_cases ht : is_throttle_payload (resp log.length) = true
    · rw [if_pos ht]
      obtain ⟨t, heq⟩ := get_go_prefix keys hne resp n ((c + 1) % keys.length)
        (log ++ [(keys.getD c "", resp log.length)]) hnext
      rw [← heq, List.getElem?_append_left (by simp), List.getElem?_concat_length]
    · rw [if_neg ht]
      exact List.getElem?_concat_length log _

theorem get_go_all_throttled (keys : List String) (hne : keys ≠ [])
    (resp : Nat → Payload) :
    ∀ (n c : Nat) (log : List (String × Payload)), c < keys.length →
      (∀ j, j < n → is_throttle_payload (resp (log.length + j)) = true) →
      (get_go resp n ⟨keys, c⟩ log).result = .ok (resp (log.length + n)) ∧
      (get_go resp n ⟨keys, c⟩ log).requests.length = log.length + n + 1 := by
  intro n
  induction n with
  | zero =>
    intro c log hc _
    unfold get_go
    rw [take_next_key_ok keys hne hc]
    dsimp only
    refine ⟨by rw [Nat.add_zero], ?_⟩
    simp only [List.length_append, List.length_cons, List.length_nil]
  | succ n ih =>
    intro c log hc hall
    have hnext : (c + 1) % keys.length < keys.length :=
      Nat.mod_lt _ (List.length_pos.mpr hne)
    unfold get_go
    rw [take_next_key_ok keys hne hc]
    dsimp only
    rw [if_pos (by simpa using hall 0 (Nat.succ_pos n))]
    have h2 := ih ((c + 1) % keys.length)
      (log ++ [(keys.getD c "", resp log.length)]) hnext (by
        intro j hj
        have hidx : (log ++ [(keys.getD c "", resp log.length)]).length + j =
            log.length + (j + 1) := by
          simp only [List.length_append, List.length_cons, List.length_nil]
          omega
        rw [hidx]
        exact hall (j + 1) (by omega))
    have hidx2 : (log ++ [(keys.getD c "", resp log.length)]).length + n =
        log.length + (n + 1) := by
      simp only [List.length_append, List.length_cons, List.length_nil]
      omega
    refine ⟨?_, ?_⟩
    · rw [h2.1, hidx2]
    · rw [h2.2, hidx2]

/-- Claim C3: for a pool of k >= 1 credentials, one execution of the
request body always yields a returned payload (never an internal
exhausted error) using at most k + 1 upstream requests; when all k loop
attempts decode to throttle payloads, exactly one additional non-retried
fallback request is issued and its payload is returned as the normal
result, even if it is still a throttle marker. -/
theorem C3_throttle_exhaustion_fallback (keys : List String) (c : Nat)
    (resp : Nat → Payload) (hne : keys ≠ []) (hc : c < keys.length) :
    (∃ pl, (av_get ⟨keys, c⟩ resp).result = .ok pl) ∧
    (av_get ⟨keys, c⟩ resp).requests.length ≤ keys.length + 1 ∧
    ((∀ i, i < keys.length → is_throttle_payload (resp i) = true) →
      (av_get ⟨keys, c⟩ resp).result = .ok (resp keys.length) ∧
      (av_get ⟨keys, c⟩ resp).requests.length = keys.length + 1) := by
  have hav : av_get ⟨keys, c⟩ resp = get_go resp keys.length ⟨keys, c⟩ [] := by
    unfold av_get
    rw [Nat.max_eq_right (List.length_pos.mpr hne)]
  have hok := get_go_ok keys hne resp keys.length c [] hc
  refine ⟨?_, ?_, ?_⟩
  · rw [hav]
    exact hok.1
  · rw [hav]
    simpa using hok.2
  · intro hall
    have h2 := get_go_all_throttled keys hne resp keys.length c [] hc
      (by intro j hj; simpa using hall j hj)
    rw [hav]
    exact ⟨by simpa using h2.1, by simpa using h2.2⟩

/-- Witness for C3: a single-key pool whose every response is a throttle
payload; the call returns the throttle payload of the fallback request
after 1 + 1 requests. -/
theorem C3_witness :
    (av_get ⟨["a"], 0⟩ (fun _ => Payload.dict [("Note", FieldVal.str "thr")])).result =
      .ok (Payload.dict [("Note", FieldVal.str "thr")]) ∧
    (av_get ⟨["a"], 0⟩ (fun _ => Payload.dict [("Note", FieldVal.str "thr")])).requests.length = 2 := by
  have h := (C3_throttle_exhaustion_fallback ["a"] 0
    (fun _ => Payload.dict [("Note", FieldVal.str "thr")])
    (by decide) (by decide)).2.2 (fun i _ => rfl)
  exact ⟨h.1, h.2⟩

/-- Claim C4, counterexample: the per-attempt check `_is_throttle_payload`
only tests for a string-valued `Note` field, so a payload carrying only
an `Information` or `Error Message` field is not recognized as a
throttle payload; the client accepts such a payload on the first
attempt and returns it instead of discarding it and retrying with the
next credential. -/
theorem C4_counterexample :
    is_throttle_payload (Payload.dict [("Information", FieldVal.str "rate limit hit")]) = false ∧
    is_throttle_payload (Payload.dict [("Error Message", FieldVal.str "invalid call")]) = false ∧
    av_get ⟨["k1", "k2"], 0⟩
        (fun _ => Payload.dict [("Information", FieldVal.str "rate limit hit")]) =
      ⟨.ok (Payload.dict [("Information", FieldVal.str "rate limit hit")]),
        ⟨["k1", "k2"], 1⟩,
        [("k1", Payload.dict [("Information", FieldVal.str "rate limit hit")])]⟩ := by
  decide

/-- Claim C4 (amended): in the per-attempt decision of the client body,
a decoded payload is recognized as a throttle payload exactly when it
is a structured dict whose `Note` field holds a string; `Information`
and `Error Message` markers are not checked at this layer, so a payload
without a string-valued `Note` — whatever other fields it carries — is
accepted as the result of its attempt and returned, while a throttle
payload is discarded and the next attempt draws the next round-robin
credential. -/
theorem C4_rejection_marker_detection (keys : List String) (c : Nat)
    (resp : Nat → Payload) (hne : keys ≠ []) (hc : c < keys.length) :
    (∀ p, is_throttle_payload p = true ↔
      ∃ fields s, p = Payload.dict fields ∧
        fields.lookup "Note" = some (FieldVal.str s)) ∧
    (is_throttle_payload (resp 0) = false →
      av_get ⟨keys, c⟩ resp =
        ⟨.ok (resp 0), ⟨keys, (c + 1) % keys.length⟩,
          [(keys.getD c "", resp 0)]⟩) ∧
    (is_throttle_payload (resp 0) = true →
      (av_get ⟨keys, c⟩ resp).requests[0]? = some (keys.getD c "", resp 0) ∧
      (av_get ⟨keys, c⟩ resp).requests[1]? =
        some (keys.getD ((c + 1) % keys.length) "", resp 1)) := by
  have hav : av_get ⟨keys, c⟩ resp = get_go resp keys.length ⟨keys, c⟩ [] := by
    unfold av_get
    rw [Nat.max_eq_right (List.length_pos.mpr hne)]
  have hnext : (c + 1) % keys.length < keys.length :=
    Nat.mod_lt _ (List.length_pos.mpr hne)
  obtain ⟨m, hm⟩ : ∃ m, keys.length = m + 1 :=
    ⟨keys.length - 1, by have := List.length_pos.mpr hne; omega⟩
  refine ⟨?_, ?_, ?_⟩
  · intro p
    constructor
    · intro h
      cases p with
      | nondict => simp [is_throttle_payload] at h
      | dict fields =>
        cases hl : fields.lookup "Note" with
        | none => simp [is_throttle_payload, hl] at h
        | some fv =>
          cases fv with
          | str s => exact ⟨fields, s, rfl, hl⟩
          | other => simp [is_throttle_payload, hl] at h
    · rintro ⟨fields, s, rfl, hl⟩
      simp [is_throttle_payload, hl]
  · intro hnt
    rw [hav, hm]
    unfold get_go
    rw [take_next_key_ok keys hne hc]
    dsimp only
    rw [if_neg (by simp [hnt])]
    simp [hm]
  · intro ht
    rw [hav, hm]
    unfold get_go
    rw [take_next_key_ok keys hne hc]
    dsimp only
    rw [if_pos (by simpa using ht)]
    simp only [List.length_nil, List.nil_append]
    constructor
    · obtain ⟨t, heq⟩ := get_go_prefix keys hne resp m ((c + 1) % keys.length)
        [(keys.getD c "", resp 0)] hnext
      rw [← heq]
      simp
    · have h1 := get_go_first keys hne resp m ((c + 1) % keys.length)
        [(keys.getD c "", resp 0)] hnext
      simpa [hm] using h1

/-- Witness for C4: with a two-key pool, a throttled first response is
followed by a second request carrying the next round-robin key. -/
theorem C4_witness :
    (av_get ⟨["k1", "k2"], 0⟩
        (fun i => if i = 0 then Payload.dict [("Note", FieldVal.str "thr")]
          else Payload.dict [])).requests[1]? =
      some ("k2", Payload.dict []) := by
  have h := (C4_rejection_marker_detection ["k1", "k2"] 0
    (fun i => if i = 0 then Payload.dict [("Note", FieldVal.str "thr")]
      else Payload.dict [])
    (by decide) (by decide)).2.2 rfl
  simpa using h.2
